import Mathlib

/-!
Verification development for the A2A entrypoint package
(`a2a_server.py`, `schema.py`): a shallow embedding of the JSON-RPC
envelope handler, the input extractor and the output-schema validator,
together with theorems about them.

JSON values are modelled by the inductive type `Json`; Python dicts are
association lists looked up by key (Python dicts have unique keys, so
first-match lookup agrees with dict indexing).  Python exceptions are
modelled by `Except String`: a `.error` value is an exception
propagating out of the modelled code.
-/

inductive Json where
  | null
  | bool (b : Bool)
  | num (n : Int)
  | str (s : String)
  | arr (elems : List Json)
  | obj (fields : List (String × Json))

/-- Key lookup in a JSON object (Python `d[k]` / `d.get(k)`), first match. -/
def lookupJ : List (String × Json) → String → Option Json
  | [], _ => none
  | (k2, v) :: rest, k => if k2 = k then some v else lookupJ rest k

/-- Python `d.get(k)`: absent keys give `None`, modelled as `Json.null`. -/
def getJ (kvs : List (String × Json)) (k : String) : Json :=
  (lookupJ kvs k).getD .null

/-- Python truthiness of a JSON value. -/
def Json.truthy : Json → Bool
  | .null => false
  | .bool b => b
  | .num n => n != 0
  | .str s => s != ""
  | .arr xs => !xs.isEmpty
  | .obj kvs => !kvs.isEmpty

/-- Python `a or b`. -/
def pyOr (a b : Json) : Json := if a.truthy then a else b

/-- Python `s.strip() != ""`: the string has a non-whitespace character
(stripping only removes leading/trailing whitespace, so the stripped
string is non-empty exactly when some character is not whitespace). -/
def strTruthy (s : String) : Bool := s.data.any (fun c => !c.isWhitespace)

/-- The meta dict of `_extract_input_from_jsonrpc` after the `task_id`
block: `task_id` is copied only when the key is present in `params`. -/
def meta1Of (kvs : List (String × Json)) : List (String × Json) :=
  if (lookupJ kvs "task_id").isSome then [("task_id", getJ kvs "task_id")] else []

/-- The meta dict after the `schema` block: whenever `schema` is a dict,
`schema_name` and `schema_version` are set via `.get`, hence to `null`
when the subfield is absent. -/
def meta2Of (kvs : List (String × Json)) : List (String × Json) :=
  match lookupJ kvs "schema" with
  | some (.obj skvs) =>
      meta1Of kvs ++ [("schema_name", getJ skvs "name"),
                      ("schema_version", getJ skvs "version")]
  | _ => meta1Of kvs

/-- The meta dict after the `paper` block (the metadata accumulated
before the `input` block): whenever `paper` is a dict, `input_doi` is
set to `paper.get("doi") or meta.get("input_doi")`. -/
def metaBase (kvs : List (String × Json)) : List (String × Json) :=
  match lookupJ kvs "paper" with
  | some (.obj pkvs) =>
      meta2Of kvs
        ++ [("input_doi", pyOr (getJ pkvs "doi") (getJ (meta2Of kvs) "input_doi"))]
  | _ => meta2Of kvs

/-- The fixed fallback key list `["input_text", "text", "chunk_text", "content"]`. -/
def textKeys : List String := ["input_text", "text", "chunk_text", "content"]

/-- The fallback loop of `_extract_input_from_jsonrpc`: scan the given keys
in order, return the first whose value is a string with non-whitespace
content. -/
def fallbackScan (kvs : List (String × Json)) : List String → Option String
  | [] => none
  | k :: ks =>
    match lookupJ kvs k with
    | some (.str s) => if strTruthy s then some s else fallbackScan kvs ks
    | _ => fallbackScan kvs ks

/-- `_extract_input_from_jsonrpc(params)`: returns `(text, meta)`.
The `input` block runs only when `input` is a *non-empty* dict (Python
`if inp:`); inside it, `chunk_id` and `content_type` are set via `.get`
(null when absent), and a string `input.text` with non-whitespace
content is returned at once.  Otherwise the direct fields are scanned. -/
def extract_input_from_jsonrpc (params : Json) :
    Option String × List (String × Json) :=
  match params with
  | .obj kvs =>
    let meta := metaBase kvs
    match lookupJ kvs "input" with
    | some (.obj ikvs) =>
      if ikvs.isEmpty then (fallbackScan kvs textKeys, meta)
      else
        let meta2 := meta ++ [("chunk_id", getJ ikvs "chunk_id"),
                              ("content_type", getJ ikvs "content_type")]
        match lookupJ ikvs "text" with
        | some (.str s) =>
            if strTruthy s then (some s, meta2)
            else (fallbackScan kvs textKeys, meta2)
        | _ => (fallbackScan kvs textKeys, meta2)
    | _ => (fallbackScan kvs textKeys, meta)
  | _ => (none, [])

/-!
## Schema validator (`schema.py`)

`schema.py` declares the pydantic models `Paper`, `Equation`,
`ExtractionMetadata` and `ExtractionOutput`, all with
`model_config = ConfigDict(extra="allow")`.  The handler calls
`ExtractionOutput.model_validate(output_dict)` and, on success,
`validated.model_dump()`.  We embed this composition as one function
from a candidate `Json` value to either the full ordered list of field
errors or the normalized (dumped) value:

* every declared field is optional with default `None`, so the dump
  always contains the declared fields (in declaration order, `null`
  when absent) followed by the extra, undeclared fields in their input
  order, preserved unchanged;
* a declared field that is present must match its annotation
  (`Optional[str]` accepts a JSON string or null; `Optional[Union[int,
  str]]` also accepts an integer; `Optional[Any]` accepts anything);
* validation collects all field errors (pydantic reports every error,
  in field declaration order, with element indices for lists), not
  just the first.
-/

inductive PathElem where
  | field (s : String)
  | index (n : Nat)
deriving DecidableEq, Repr

/-- One entry of the structured error list (pydantic reports `loc` and
`msg` for each error; the spec abstracts these as `field_path` and
`message`). -/
structure FieldError where
  fieldPath : List PathElem
  message : String
deriving DecidableEq, Repr

def isOptStr : Json → Bool
  | .null => true
  | .str _ => true
  | _ => false

def isOptIntOrStr : Json → Bool
  | .null => true
  | .num _ => true
  | .str _ => true
  | _ => false

/-- Errors of one declared optional field: absent is fine; a present
value must satisfy the annotation check. -/
def optFieldErr (kvs : List (String × Json)) (k : String)
    (ok : Json → Bool) (msg : String) : List FieldError :=
  match lookupJ kvs k with
  | some v => if ok v then [] else [⟨[.field k], msg⟩]
  | none => []

/-- The extra (undeclared) fields of a record: every key/value pair
whose key is not a declared field name, in input order. -/
def extrasOf (kvs : List (String × Json)) (known : List String) :
    List (String × Json) :=
  kvs.filter (fun kv => !(known.contains kv.1))

def paperKnown : List String := ["doi", "title", "year"]
def eqKnown : List String := ["latex", "model_performance"]
def metaKnown : List String :=
  ["task_id", "input_doi", "schema_name", "schema_version"]
def outKnown : List String := ["paper", "equations", "extraction_metadata"]

/-- `Paper.model_dump()`: declared fields (null-defaulted) then extras. -/
def dumpPaper (kvs : List (String × Json)) : List (String × Json) :=
  [("doi", getJ kvs "doi"), ("title", getJ kvs "title"),
   ("year", getJ kvs "year")] ++ extrasOf kvs paperKnown

def strTypeMsg : String := "Input should be a valid string"
def yearTypeMsg : String := "Input should be a valid integer or string"

/-- `Paper.model_validate` composed with `model_dump`. -/
def validatePaper : Json → Except (List FieldError) Json
  | .obj kvs =>
    let errs := optFieldErr kvs "doi" isOptStr strTypeMsg
      ++ optFieldErr kvs "title" isOptStr strTypeMsg
      ++ optFieldErr kvs "year" isOptIntOrStr yearTypeMsg
    if errs.isEmpty then .ok (.obj (dumpPaper kvs)) else .error errs
  | _ => .error [⟨[], "Input should be a valid dictionary or instance of Paper"⟩]

/-- `Equation.model_dump()`. -/
def dumpEquation (kvs : List (String × Json)) : List (String × Json) :=
  [("latex", getJ kvs "latex"),
   ("model_performance", getJ kvs "model_performance")] ++ extrasOf kvs eqKnown

/-- `Equation.model_validate` composed with `model_dump`
(`model_performance` is `Optional[Any]`, so only `latex` is checked). -/
def validateEquation : Json → Except (List FieldError) Json
  | .obj kvs =>
    let errs := optFieldErr kvs "latex" isOptStr strTypeMsg
    if errs.isEmpty then .ok (.obj (dumpEquation kvs)) else .error errs
  | _ => .error [⟨[], "Input should be a valid dictionary or instance of Equation"⟩]

/-- `ExtractionMetadata.model_dump()`. -/
def dumpMetadata (kvs : List (String × Json)) : List (String × Json) :=
  [("task_id", getJ kvs "task_id"), ("input_doi", getJ kvs "input_doi"),
   ("schema_name", getJ kvs "schema_name"),
   ("schema_version", getJ kvs "schema_version")] ++ extrasOf kvs metaKnown

/-- `ExtractionMetadata.model_validate` composed with `model_dump`. -/
def validateMetadata : Json → Except (List FieldError) Json
  | .obj kvs =>
    let errs := optFieldErr kvs "task_id" isOptStr strTypeMsg
      ++ optFieldErr kvs "input_doi" isOptStr strTypeMsg
      ++ optFieldErr kvs "schema_name" isOptStr strTypeMsg
      ++ optFieldErr kvs "schema_version" isOptStr strTypeMsg
    if errs.isEmpty then .ok (.obj (dumpMetadata kvs)) else .error errs
  | _ => .error
      [⟨[], "Input should be a valid dictionary or instance of ExtractionMetadata"⟩]

/-- Prepend a path element to every error's location. -/
def pushPath (p : PathElem) (es : List FieldError) : List FieldError :=
  es.map (fun fe => ⟨p :: fe.fieldPath, fe.message⟩)

/-- Dump of one list element (only reached when every element is a
record, since a non-record element raises a field error). -/
def dumpEquationJ : Json → Json
  | .obj kvs => .obj (dumpEquation kvs)
  | j => j

/-- All errors of the `equations` list elements, each prefixed with its
index, in element order. -/
def eqErrorsFrom (i : Nat) : List Json → List FieldError
  | [] => []
  | e :: rest =>
    (match validateEquation e with
     | .ok _ => []
     | .error es => pushPath (.index i) es) ++ eqErrorsFrom (i + 1) rest

/-- Validation of one required model field of `ExtractionOutput`. -/
def validateField (kvs : List (String × Json)) (k : String)
    (vf : Json → Except (List FieldError) Json) :
    Except (List FieldError) Json :=
  match lookupJ kvs k with
  | none => .error [⟨[.field k], "Field required"⟩]
  | some v =>
    match vf v with
    | .ok w => .ok w
    | .error es => .error (pushPath (.field k) es)

/-- Validation of the required `equations: List[Equation]` field. -/
def validateEquationsField (kvs : List (String × Json)) :
    Except (List FieldError) Json :=
  match lookupJ kvs "equations" with
  | none => .error [⟨[.field "equations"], "Field required"⟩]
  | some (.arr es) =>
    match eqErrorsFrom 0 es with
    | [] => .ok (.arr (es.map dumpEquationJ))
    | errs => .error (pushPath (.field "equations") errs)
  | some _ => .error [⟨[.field "equations"], "Input should be a valid list"⟩]

def errsOf : Except (List FieldError) Json → List FieldError
  | .error es => es
  | .ok _ => []

/-- `ExtractionOutput.model_validate` composed with `model_dump`:
either the full ordered error list (fields in declaration order) or
the normalized value (declared fields then preserved extras). -/
def validateExtractionOutput : Json → Except (List FieldError) Json
  | .obj kvs =>
    let pres := validateField kvs "paper" validatePaper
    let eres := validateEquationsField kvs
    let mres := validateField kvs "extraction_metadata" validateMetadata
    match pres, eres, mres with
    | .ok pw, .ok ew, .ok mw =>
      .ok (.obj ([("paper", pw), ("equations", ew),
                  ("extraction_metadata", mw)] ++ extrasOf kvs outKnown))
    | _, _, _ => .error (errsOf pres ++ errsOf eres ++ errsOf mres)
  | _ => .error
      [⟨[], "Input should be a valid dictionary or instance of ExtractionOutput"⟩]

/-!
## JSON-RPC envelope handler (`a2a_server.py`)

The external agent function `run_agent_fn(text, meta)` may return a
value or raise; we model it as a function into `Except String Json`,
where `.error` is a raised exception.  `_handle_single_jsonrpc` calls
it without any `try`, so an agent exception propagates out of the
handler (only `ValidationError` from `model_validate` is caught); the
handler result type is therefore also `Except String`, with `.ok none`
standing for the `None` returned for notifications.
-/

def AgentFn : Type := String → List (String × Json) → Except String Json

/-- `_jsonrpc_success`. -/
def jsonrpc_success (rpcId result : Json) : Json :=
  .obj [("jsonrpc", .str "2.0"), ("id", rpcId), ("result", result)]

/-- `_jsonrpc_error` (the `data` entry is added only when not `None`). -/
def jsonrpc_error (rpcId : Json) (code : Int) (message : String)
    (data : Option Json) : Json :=
  .obj [("jsonrpc", .str "2.0"), ("id", rpcId),
        ("error", .obj ([("code", .num code), ("message", .str message)]
          ++ (match data with | some d => [("data", d)] | none => [])))]

def Json.isNull : Json → Bool
  | .null => true
  | _ => false

def missingTextMsg : String :=
  "Missing input text in params (expected input.text or input_text)."

def schemaErrMsg : String :=
  "White agent returned JSON that does not match required schema (paper/equations/extraction_metadata)."

def encodePathElem : PathElem → Json
  | .field s => .str s
  | .index n => .num n

def encodeFieldError (fe : FieldError) : Json :=
  .obj [("field_path", .arr (fe.fieldPath.map encodePathElem)),
        ("message", .str fe.message)]

/-- `_handle_single_jsonrpc(body, run_agent_fn)`.  `body.get` on a
non-dict raises (`AttributeError`).  `rpc_id is None` covers both an
absent `id` and an explicit JSON null (the source tests this twice,
redundantly); notifications return `None` before any extraction.
`if not text:` is false for every extracted text, since extraction
only returns strings with non-whitespace content, but we model the
emptiness test faithfully. -/
def handle_single_jsonrpc (f : AgentFn) (body : Json) :
    Except String (Option Json) :=
  match body with
  | .obj kvs =>
    let rpcId := getJ kvs "id"
    let method := (lookupJ kvs "method").getD (.str "")
    let params := (lookupJ kvs "params").getD (.obj [])
    if rpcId.isNull then .ok none
    else
      let te := extract_input_from_jsonrpc params
      match te.1 with
      | none =>
        .ok (some (jsonrpc_error rpcId (-32602) missingTextMsg
          (some (.obj [("method", method)]))))
      | some text =>
        if text = "" then
          .ok (some (jsonrpc_error rpcId (-32602) missingTextMsg
            (some (.obj [("method", method)]))))
        else
          match f text te.2 with
          | .error e => .error e
          | .ok outputDict =>
            match validateExtractionOutput outputDict with
            | .error errs =>
              .ok (some (jsonrpc_error rpcId (-32000) schemaErrMsg
                (some (.obj [("validation_errors",
                              .arr (errs.map encodeFieldError))]))))
            | .ok validated => .ok (some (jsonrpc_success rpcId validated))
  | _ => .error "AttributeError"

/-- The batch loop of `jsonrpc_root`: each item through the single-item
path, non-`None` responses collected in order; an uncaught exception
aborts the whole batch. -/
def batchLoop (f : AgentFn) : List Json → Except String (List Json)
  | [] => .ok []
  | item :: rest =>
    match handle_single_jsonrpc f item with
    | .error e => .error e
    | .ok resp =>
      match batchLoop f rest with
      | .error e => .error e
      | .ok rs =>
        match resp with
        | none => .ok rs
        | some r => .ok (r :: rs)

/-- The `POST /` endpoint body (`jsonrpc_root`): a list payload is
handled in batch mode, anything else through the single-item path. -/
def jsonrpc_root (f : AgentFn) (payload : Json) :
    Except String (Option Json) :=
  match payload with
  | .arr items => (batchLoop f items).map (fun rs => some (.arr rs))
  | _ => handle_single_jsonrpc f payload

/-- `_run_agent_stub(text, meta)`: the default agent used when no
`run_agent_fn` is injected. -/
def run_agent_stub (_text : String) (meta : List (String × Json)) : Json :=
  .obj [("paper", .obj [("doi", getJ meta "input_doi"), ("title", .null),
                        ("year", .null)]),
        ("equations", .arr [.obj
          [("latex", .null), ("model_performance", .null),
           ("notes", .str "STUB: replace run_agent_fn with your extractor; latex/performance are required fields.")]]),
        ("extraction_metadata", .obj
          [("task_id", getJ meta "task_id"), ("input_doi", getJ meta "input_doi"),
           ("schema_name", getJ meta "schema_name"),
           ("schema_version", getJ meta "schema_version")])]

/-- First hit of one fallback key: its value, when that value is a
string with non-whitespace content. -/
def pickText (kvs : List (String × Json)) (k : String) : Option String :=
  match lookupJ kvs k with
  | some (.str s) => if strTruthy s then some s else none
  | _ => none

/-- The six keys that can ever appear in extracted metadata. -/
def allMetaKeys : List String :=
  ["task_id", "schema_name", "schema_version", "input_doi",
   "chunk_id", "content_type"]

/-- An agent function that always raises. -/
def raisingAgent : AgentFn := fun _ _ => .error "agent raised"

/-- An agent function returning a minimal valid output. -/
def minimalAgent : AgentFn := fun _ _ =>
  .ok (.obj [("paper", .obj []), ("equations", .arr []),
             ("extraction_metadata", .obj [])])

/-- The normalized form of `minimalAgent`'s output. -/
def minimalNormalized : Json :=
  .obj [("paper", .obj [("doi", .null), ("title", .null), ("year", .null)]),
        ("equations", .arr []),
        ("extraction_metadata", .obj
          [("task_id", .null), ("input_doi", .null), ("schema_name", .null),
           ("schema_version", .null)])]

/-- The single-item response of each batch item under `minimalAgent`. -/
def minimalResOf : Json → Option Json := fun i =>
  ((handle_single_jsonrpc minimalAgent i).toOption).join

/-- An agent function returning output that does not fit the schema in
three distinct fields at once. -/
def badSchemaAgent : AgentFn := fun _ _ =>
  .ok (.obj [("paper", .arr []), ("equations", .str "not-a-list"),
             ("extraction_metadata", .null)])

/-- The three field errors of `badSchemaAgent`'s output. -/
def threeErrs : List FieldError :=
  [⟨[.field "paper"], "Input should be a valid dictionary or instance of Paper"⟩,
   ⟨[.field "equations"], "Input should be a valid list"⟩,
   ⟨[.field "extraction_metadata"],
    "Input should be a valid dictionary or instance of ExtractionMetadata"⟩]

/-- Every key/value pair of `src` that is not a declared (`known`)
field also occurs, unchanged, in `out`. -/
def keepsExtras (known : List String) (src out : List (String × Json)) : Prop :=
  ∀ kv, kv ∈ src → known.contains kv.1 = false → kv ∈ out

/-- Sample output with an extra, schema-unknown field at every level. -/
def extrasSampleKvs : List (String × Json) :=
  [("paper", .obj [("doi", .str "10.1"), ("venue", .str "JDS")]),
   ("equations", .arr [.obj [("latex", .str "y=x"), ("units", .str "kg")]]),
   ("extraction_metadata", .obj [("task_id", .str "t"), ("run", .num 4)]),
   ("debug", .bool true)]

/-- The normalized form of `extrasSampleKvs`, extras retained. -/
def extrasSampleNorm : Json :=
  .obj [("paper", .obj [("doi", .str "10.1"), ("title", .null),
                        ("year", .null), ("venue", .str "JDS")]),
        ("equations", .arr [.obj [("latex", .str "y=x"),
                                  ("model_performance", .null),
                                  ("units", .str "kg")]]),
        ("extraction_metadata", .obj
          [("task_id", .str "t"), ("input_doi", .null), ("schema_name", .null),
           ("schema_version", .null), ("run", .num 4)]),
        ("debug", .bool true)]

/-!
## Helper lemmas
-/

theorem lookupJ_append (l1 l2 : List (String × Json)) (k : String) :
    lookupJ (l1 ++ l2) k
      = match lookupJ l1 k with
        | some v => some v
        | none => lookupJ l2 k := by
  induction l1 with
  | nil => rfl
  | cons hd tl ih =>
    obtain ⟨k2, v⟩ := hd
    by_cases hk : k2 = k
    · simp [lookupJ, hk]
    · simp [lookupJ, hk, ih]

theorem lookupJ_eq_none (l : List (String × Json)) (k : String)
    (h : ∀ kv ∈ l, kv.1 ≠ k) : lookupJ l k = none := by
  induction l with
  | nil => rfl
  | cons hd tl ih =>
    have h1 : hd.1 ≠ k := h hd (List.mem_cons_self hd tl)
    obtain ⟨k2, v⟩ := hd
    simp only [lookupJ, if_neg h1]
    exact ih (fun kv hkv => h kv (List.mem_cons_of_mem _ hkv))

theorem mem_meta1Of (kvs : List (String × Json)) (kv : String × Json)
    (h : kv ∈ meta1Of kvs) : kv.1 = "task_id" := by
  unfold meta1Of at h
  split at h
  · simp only [List.mem_singleton] at h
    rw [h]
  · exact absurd h (List.not_mem_nil kv)

theorem mem_meta2Of (kvs : List (String × Json)) (kv : String × Json)
    (h : kv ∈ meta2Of kvs) :
    kv.1 ∈ (["task_id", "schema_name", "schema_version"] : List String) := by
  unfold meta2Of at h
  split at h
  · rcases List.mem_append.mp h with h | h
    · simp [mem_meta1Of kvs kv h]
    · simp only [List.mem_cons, List.not_mem_nil, or_false] at h
      rcases h with h | h <;> simp [h]
  · simp [mem_meta1Of kvs kv h]

theorem mem_metaBase (kvs : List (String × Json)) (kv : String × Json)
    (h : kv ∈ metaBase kvs) :
    kv.1 ∈ (["task_id", "schema_name", "schema_version", "input_doi"] :
      List String) := by
  unfold metaBase at h
  have mem2 : kv ∈ meta2Of kvs →
      kv.1 ∈ (["task_id", "schema_name", "schema_version", "input_doi"] :
        List String) := by
    intro hm
    have hb := mem_meta2Of kvs kv hm
    simp only [List.mem_cons, List.not_mem_nil, or_false] at hb ⊢
    tauto
  split at h
  · rcases List.mem_append.mp h with h | h
    · exact mem2 h
    · simp only [List.mem_singleton] at h
      simp [h]
  · exact mem2 h

theorem extract_meta_cases (kvs : List (String × Json)) :
    ((∀ ikvs, lookupJ kvs "input" = some (.obj ikvs) → ikvs.isEmpty = true)
      ∧ (extract_input_from_jsonrpc (.obj kvs)).2 = metaBase kvs)
    ∨ ∃ ikvs, lookupJ kvs "input" = some (.obj ikvs) ∧ ikvs.isEmpty = false
        ∧ (extract_input_from_jsonrpc (.obj kvs)).2
          = metaBase kvs ++ [("chunk_id", getJ ikvs "chunk_id"),
                             ("content_type", getJ ikvs "content_type")] := by
  unfold extract_input_from_jsonrpc
  dsimp only
  split
  next ikvs heq =>
    by_cases he : ikvs.isEmpty
    · left
      refine ⟨?_, by simp [he]⟩
      intro ikvs2 heq2
      rw [heq] at heq2
      cases heq2
      exact he
    · right
      refine ⟨ikvs, heq, by simpa using he, ?_⟩
      simp only [he, Bool.false_eq_true, ite_false]
      split
      · split <;> rfl
      · rfl
  next h2 =>
    left
    refine ⟨?_, rfl⟩
    intro ikvs2 heq2
    exact absurd heq2 (h2 ikvs2)

theorem mem_extract_meta (kvs : List (String × Json)) (kv : String × Json)
    (h : kv ∈ (extract_input_from_jsonrpc (.obj kvs)).2) :
    kv.1 ∈ allMetaKeys := by
  have base : kv ∈ metaBase kvs → kv.1 ∈ allMetaKeys := by
    intro hm
    have hb := mem_metaBase kvs kv hm
    simp only [List.mem_cons, List.not_mem_nil, or_false] at hb
    rcases hb with hb | hb | hb | hb <;> simp [hb, allMetaKeys]
  rcases extract_meta_cases kvs with ⟨-, hc⟩ | ⟨ikvs, _, _, hc⟩
  · exact base (hc ▸ h)
  · rcases List.mem_append.mp (hc ▸ h) with hm | hm
    · exact base hm
    · simp only [List.mem_cons, List.not_mem_nil, or_false] at hm
      rcases hm with hm | hm <;> simp [hm, allMetaKeys]

theorem lookupJ_metaBase_chunk (kvs : List (String × Json))
    (k : String) (hk : k = "chunk_id" ∨ k = "content_type") :
    lookupJ (metaBase kvs) k = none := by
  refine lookupJ_eq_none _ _ (fun kv hkv => ?_)
  have hb := mem_metaBase kvs kv hkv
  simp only [List.mem_cons, List.not_mem_nil, or_false] at hb
  rcases hb with hb | hb | hb | hb <;> rcases hk with rfl | rfl <;> simp [hb]

theorem lookupJ_meta1Of_ne (kvs : List (String × Json)) (k : String)
    (hk : k ≠ "task_id") : lookupJ (meta1Of kvs) k = none := by
  refine lookupJ_eq_none _ _ (fun kv hkv => ?_)
  rw [mem_meta1Of kvs kv hkv]
  exact fun he => hk he.symm

theorem lookupJ_meta2Of_schema (kvs skvs : List (String × Json))
    (h : lookupJ kvs "schema" = some (.obj skvs)) :
    lookupJ (meta2Of kvs) "schema_name" = some (getJ skvs "name")
    ∧ lookupJ (meta2Of kvs) "schema_version" = some (getJ skvs "version") := by
  unfold meta2Of
  rw [h]
  constructor <;>
    rw [lookupJ_append, lookupJ_meta1Of_ne kvs _ (by simp)] <;> simp [lookupJ]

theorem lookupJ_meta2Of_doi_none (kvs : List (String × Json)) :
    lookupJ (meta2Of kvs) "input_doi" = none := by
  refine lookupJ_eq_none _ _ (fun kv hkv => ?_)
  have hb := mem_meta2Of kvs kv hkv
  simp only [List.mem_cons, List.not_mem_nil, or_false] at hb
  rcases hb with hb | hb | hb <;> simp [hb]

theorem lookupJ_metaBase_paper (kvs pkvs : List (String × Json))
    (h : lookupJ kvs "paper" = some (.obj pkvs)) :
    lookupJ (metaBase kvs) "input_doi"
      = some (pyOr (getJ pkvs "doi") Json.null) := by
  have hnull : getJ (meta2Of kvs) "input_doi" = Json.null := by
    unfold getJ
    rw [lookupJ_meta2Of_doi_none]
    rfl
  unfold metaBase
  rw [h, hnull, lookupJ_append, lookupJ_meta2Of_doi_none]
  simp [lookupJ]

theorem lookupJ_metaBase_not_doi (kvs : List (String × Json)) (k : String)
    (hk : k ≠ "input_doi") :
    lookupJ (metaBase kvs) k = lookupJ (meta2Of kvs) k := by
  unfold metaBase
  split
  · rw [lookupJ_append]
    cases hx : lookupJ (meta2Of kvs) k <;> simp [hx, lookupJ, Ne.symm hk]
  · rfl

theorem lookupJ_extract_meta_base (kvs : List (String × Json)) (k : String)
    (h1 : k ≠ "chunk_id") (h2 : k ≠ "content_type") :
    lookupJ (extract_input_from_jsonrpc (.obj kvs)).2 k
      = lookupJ (metaBase kvs) k := by
  rcases extract_meta_cases kvs with ⟨-, hc⟩ | ⟨ikvs, -, -, hc⟩
  · rw [hc]
  · rw [hc, lookupJ_append]
    cases hx : lookupJ (metaBase kvs) k <;>
      simp [hx, lookupJ, Ne.symm h1, Ne.symm h2]

theorem fallbackScan_eq_head (kvs : List (String × Json)) (ks : List String) :
    fallbackScan kvs ks = (ks.filterMap (pickText kvs)).head? := by
  induction ks with
  | nil => rfl
  | cons k rest ih =>
    simp only [fallbackScan, pickText, List.filterMap_cons]
    split
    · next s hs =>
      by_cases ht : strTruthy s
      · simp [ht]
      · simp only [ht, if_neg, Bool.false_eq_true, ite_false]
        exact ih
    · exact ih

/-!
## Claim theorems
-/

/-- C1: the source does not catch exceptions from the agent function:
`_handle_single_jsonrpc` calls `run_agent_fn_local(text, meta)` outside
any `try`, so at this concrete request an agent that raises makes the
exception escape `jsonrpc_root` to the transport layer instead of being
converted into a JSON-RPC error response. -/
theorem agent_exception_reaches_transport :
    jsonrpc_root raisingAgent
      (.obj [("id", .num 1), ("method", .str "message/send"),
             ("params", .obj [("input_text", .str "y = a + bx")])])
      = .error "agent raised" := rfl

/-- C2 counterexample: for `params = {"schema": {}}` (a `schema` record
lacking `name` and `version`) the extractor's meta does contain
`schema_name` and `schema_version` entries, with null values — the
claim says such entries would be omitted. -/
theorem absent_schema_fields_become_null_entries :
    (extract_input_from_jsonrpc (.obj [("schema", .obj [])])).2
      = [("schema_name", .null), ("schema_version", .null)] := rfl

/-- C2 amended: the `task_id` key is copied into meta only when it is
present in `params`; but when `schema` is a record, meta always gains
`schema_name` and `schema_version` entries whose values are the
subfields looked up with `.get`, hence null when absent; when `paper`
is a record, meta always gains an `input_doi` entry
(`paper.get("doi") or None`, hence null when `doi` is absent or
falsy); and when `input` is a non-empty record, meta always gains
`chunk_id` and `content_type` entries, likewise null when the
subfield is absent. -/
theorem meta_fields_presence (kvs : List (String × Json)) :
    (lookupJ kvs "task_id" = none →
      lookupJ (extract_input_from_jsonrpc (.obj kvs)).2 "task_id" = none)
    ∧ (∀ skvs, lookupJ kvs "schema" = some (.obj skvs) →
        lookupJ (extract_input_from_jsonrpc (.obj kvs)).2 "schema_name"
          = some (getJ skvs "name")
        ∧ lookupJ (extract_input_from_jsonrpc (.obj kvs)).2 "schema_version"
          = some (getJ skvs "version"))
    ∧ (∀ pkvs, lookupJ kvs "paper" = some (.obj pkvs) →
        lookupJ (extract_input_from_jsonrpc (.obj kvs)).2 "input_doi"
          = some (pyOr (getJ pkvs "doi") Json.null))
    ∧ (∀ ikvs, lookupJ kvs "input" = some (.obj ikvs) → ikvs.isEmpty = false →
        lookupJ (extract_input_from_jsonrpc (.obj kvs)).2 "chunk_id"
          = some (getJ ikvs "chunk_id")
        ∧ lookupJ (extract_input_from_jsonrpc (.obj kvs)).2 "content_type"
          = some (getJ ikvs "content_type")) := by
  refine ⟨?_, ?_, ?_, ?_⟩
  · intro h
    rw [lookupJ_extract_meta_base kvs _ (by simp) (by simp),
        lookupJ_metaBase_not_doi kvs _ (by simp)]
    unfold meta2Of
    have h1 : meta1Of kvs = [] := by simp [meta1Of, h]
    split <;> simp [h1, lookupJ]
  · intro skvs h
    have hs := lookupJ_meta2Of_schema kvs skvs h
    constructor <;>
      rw [lookupJ_extract_meta_base kvs _ (by simp) (by simp),
          lookupJ_metaBase_not_doi kvs _ (by simp)]
    · exact hs.1
    · exact hs.2
  · intro pkvs h
    rw [lookupJ_extract_meta_base kvs _ (by simp) (by simp)]
    exact lookupJ_metaBase_paper kvs pkvs h
  · intro ikvs h hne
    rcases extract_meta_cases kvs with ⟨hall, -⟩ | ⟨ikvs2, heq2, -, hc⟩
    · rw [hall ikvs h] at hne
      cases hne
    · rw [h] at heq2
      cases heq2
      constructor <;> rw [hc, lookupJ_append, lookupJ_metaBase_chunk] <;>
        simp [lookupJ]

/-- C2 amended, instantiated: `params` with a `schema` record lacking
`version`, a `paper` record lacking `doi`, and a non-empty `input`
record lacking `content_type`. -/
theorem meta_fields_presence_witness :
    lookupJ (extract_input_from_jsonrpc
        (.obj [("schema", .obj [("name", .str "agmodel")]),
               ("paper", .obj [("title", .str "t")]),
               ("input", .obj [("chunk_id", .str "c1")])])).2 "task_id" = none
    ∧ lookupJ (extract_input_from_jsonrpc
        (.obj [("schema", .obj [("name", .str "agmodel")]),
               ("paper", .obj [("title", .str "t")]),
               ("input", .obj [("chunk_id", .str "c1")])])).2 "schema_version"
        = some .null
    ∧ lookupJ (extract_input_from_jsonrpc
        (.obj [("schema", .obj [("name", .str "agmodel")]),
               ("paper", .obj [("title", .str "t")]),
               ("input", .obj [("chunk_id", .str "c1")])])).2 "input_doi"
        = some .null
    ∧ lookupJ (extract_input_from_jsonrpc
        (.obj [("schema", .obj [("name", .str "agmodel")]),
               ("paper", .obj [("title", .str "t")]),
               ("input", .obj [("chunk_id", .str "c1")])])).2 "content_type"
        = some .null := by
  have h := meta_fields_presence
    [("schema", .obj [("name", .str "agmodel")]),
     ("paper", .obj [("title", .str "t")]),
     ("input", .obj [("chunk_id", .str "c1")])]
  refine ⟨h.1 rfl, ?_, ?_, ?_⟩
  · exact ((h.2.1 _ rfl).2 :
      _ = some (getJ [("name", Json.str "agmodel")] "version"))
  · exact (h.2.2.1 _ rfl :
      _ = some (pyOr (getJ [("title", Json.str "t")] "doi") Json.null))
  · exact ((h.2.2.2 _ rfl rfl).2 :
      _ = some (getJ [("chunk_id", Json.str "c1")] "content_type"))

/-- C10: for every params value, every key/value entry of the meta
mapping returned by the input extractor has its key among the six
fixed keys `task_id`, `schema_name`, `schema_version`, `input_doi`,
`chunk_id`, `content_type`. -/
theorem meta_keys_bounded (params : Json) (kv : String × Json)
    (h : kv ∈ (extract_input_from_jsonrpc params).2) :
    kv.1 ∈ allMetaKeys := by
  match params with
  | .obj kvs => exact mem_extract_meta kvs kv h
  | .null | .bool _ | .num _ | .str _ | .arr _ => exact absurd h (List.not_mem_nil kv)

/-- C10, instantiated at a params record carrying `task_id`. -/
theorem meta_keys_bounded_witness :
    ("task_id", Json.str "t1") ∈
      (extract_input_from_jsonrpc (.obj [("task_id", .str "t1")])).2
    ∧ ("task_id", Json.str "t1").1 ∈ allMetaKeys := by
  have hm : ("task_id", Json.str "t1") ∈
      (extract_input_from_jsonrpc (.obj [("task_id", .str "t1")])).2 :=
    List.mem_singleton.mpr rfl
  exact ⟨hm, meta_keys_bounded _ _ hm⟩

/-- C4: whenever `params.input` is a record whose `text` field is a
string with non-whitespace content, the extractor returns exactly that
string, whatever else `params` contains. -/
theorem input_text_returned_exactly (kvs ikvs : List (String × Json))
    (s : String)
    (h1 : lookupJ kvs "input" = some (.obj ikvs))
    (h2 : lookupJ ikvs "text" = some (.str s))
    (h3 : strTruthy s = true) :
    (extract_input_from_jsonrpc (.obj kvs)).1 = some s := by
  have hne : ikvs.isEmpty = false := by
    cases ikvs
    · exact absurd h2 (by simp [lookupJ])
    · rfl
  unfold extract_input_from_jsonrpc
  dsimp only
  rw [h1]
  simp [hne, h2, h3]

/-- C4, instantiated: `input.text` present together with competing
fallback fields. -/
theorem input_text_returned_exactly_witness :
    (extract_input_from_jsonrpc
      (.obj [("input_text", .str "other"),
             ("input", .obj [("text", .str "y = a + bx")])])).1
      = some "y = a + bx" :=
  input_text_returned_exactly _ _ _ rfl rfl rfl

/-- C5: when no non-empty `input.text` string is available, the
extracted text is the first hit of the scan of the direct fields
`input_text`, `text`, `chunk_text`, `content`, in exactly that fixed
order; in particular a non-empty `input_text` string wins over any
other direct field. -/
theorem fallback_fixed_order (kvs : List (String × Json))
    (h : ∀ ikvs s, lookupJ kvs "input" = some (.obj ikvs) →
        lookupJ ikvs "text" = some (.str s) → strTruthy s = false) :
    (extract_input_from_jsonrpc (.obj kvs)).1
      = (textKeys.filterMap (pickText kvs)).head?
    ∧ (∀ s, lookupJ kvs "input_text" = some (.str s) → strTruthy s = true →
        (extract_input_from_jsonrpc (.obj kvs)).1 = some s) := by
  have main : (extract_input_from_jsonrpc (.obj kvs)).1
      = fallbackScan kvs textKeys := by
    unfold extract_input_from_jsonrpc
    dsimp only
    split
    next ikvs heq =>
      by_cases he : ikvs.isEmpty
      · simp [he]
      · simp only [he, Bool.false_eq_true, ite_false]
        split
        next s hs => simp [h ikvs s heq hs]
        next => rfl
    next => rfl
  refine ⟨main.trans (fallbackScan_eq_head kvs textKeys), ?_⟩
  intro s hs ht
  rw [main]
  simp [textKeys, fallbackScan, hs, ht]

/-- C5, instantiated: `input_text` is returned although `text` and
`content` are also present. -/
theorem fallback_fixed_order_witness :
    (extract_input_from_jsonrpc
      (.obj [("content", .str "c"), ("text", .str "t"),
             ("input_text", .str "first")])).1 = some "first" :=
  (fallback_fixed_order
      [("content", .str "c"), ("text", .str "t"), ("input_text", .str "first")]
      (by intro ikvs s hin ht; simp [lookupJ] at hin)).2
    "first" rfl rfl

/-- C6: a request whose `id` is absent or null is a notification: the
handler returns no response entry and never reaches extraction, the
agent call or validation — the result is `.ok none` for every agent
function, even one that always raises, and every params payload. -/
theorem notifications_silent (f : AgentFn) (kvs : List (String × Json))
    (h : getJ kvs "id" = .null) :
    handle_single_jsonrpc f (.obj kvs) = .ok none := by
  unfold handle_single_jsonrpc
  dsimp only
  rw [h]
  rfl

/-- C6, instantiated: an `id`-less request with a raising agent and a
params payload whose extraction would succeed still yields no
response. -/
theorem notifications_silent_witness :
    handle_single_jsonrpc (fun _ _ => .error "boom")
      (.obj [("method", .str "extract"),
             ("params", .obj [("input", .obj [("text", .str "y")])])])
      = .ok none :=
  notifications_silent _ _ rfl

theorem batchLoop_filterMap (f : AgentFn) (resOf : Json → Option Json) :
    ∀ items : List Json,
      (∀ i ∈ items, handle_single_jsonrpc f i = .ok (resOf i)) →
      batchLoop f items = .ok (items.filterMap resOf) := by
  intro items
  induction items with
  | nil => intro _; rfl
  | cons i rest ih =>
    intro h
    have hi := h i (List.mem_cons_self i rest)
    have hr := ih (fun j hj => h j (List.mem_cons_of_mem i hj))
    simp only [batchLoop, hi, hr, List.filterMap_cons]
    cases hx : resOf i <;> simp [hx]

/-- C7: a batch payload is processed element by element through the
single-item path and the non-null responses are collected in input
order (`resOf` gives each item's single-item response; notifications
contribute `none` and are dropped by the collection). -/
theorem batch_preserves_order (f : AgentFn) (resOf : Json → Option Json)
    (items : List Json)
    (h : ∀ i ∈ items, handle_single_jsonrpc f i = .ok (resOf i)) :
    jsonrpc_root f (.arr items) = .ok (some (.arr (items.filterMap resOf))) := by
  unfold jsonrpc_root
  dsimp only
  rw [batchLoop_filterMap f resOf items h]
  rfl

/-- C7, instantiated: a notification between two normal requests gives
a response array of length 2 in the order of the two requests. -/
theorem batch_preserves_order_witness :
    jsonrpc_root minimalAgent
      (.arr [.obj [("id", .num 1), ("params", .obj [("input_text", .str "a")])],
             .obj [("method", .str "note"),
                   ("params", .obj [("input_text", .str "b")])],
             .obj [("id", .num 2), ("params", .obj [("input_text", .str "c")])]])
      = .ok (some (.arr [jsonrpc_success (.num 1) minimalNormalized,
                         jsonrpc_success (.num 2) minimalNormalized])) :=
  batch_preserves_order minimalAgent minimalResOf _
    (by intro i hi; fin_cases hi <;> rfl)

/-- C8: whenever the agent's returned value fails schema validation,
the handler responds with a `-32000` error whose data carries
`validation_errors`, the full ordered list of field errors produced by
the validator; and the validator collects every field error, not just
the first — at an output bad in three fields it reports all three. -/
theorem validation_failure_full_errors
    (f : AgentFn) (kvs : List (String × Json)) (text : String) (out : Json)
    (errs : List FieldError)
    (hid : (getJ kvs "id").isNull = false)
    (hx : (extract_input_from_jsonrpc
        ((lookupJ kvs "params").getD (.obj []))).1 = some text)
    (hne : text ≠ "")
    (hf : f text (extract_input_from_jsonrpc
        ((lookupJ kvs "params").getD (.obj []))).2 = .ok out)
    (hv : validateExtractionOutput out = .error errs) :
    handle_single_jsonrpc f (.obj kvs)
      = .ok (some (jsonrpc_error (getJ kvs "id") (-32000) schemaErrMsg
          (some (.obj [("validation_errors",
                        .arr (errs.map encodeFieldError))]))))
    ∧ validateExtractionOutput
        (.obj [("paper", .arr []), ("equations", .str "not-a-list"),
               ("extraction_metadata", .null)])
      = .error threeErrs := by
  refine ⟨?_, rfl⟩
  unfold handle_single_jsonrpc
  dsimp only
  rw [hx]
  simp only [hid, Bool.false_eq_true, if_false, hne, ite_false, hf, hv]

/-- C8, instantiated: an agent whose output is bad in three fields
produces the `-32000` response listing all three errors. -/
theorem validation_failure_full_errors_witness :
    handle_single_jsonrpc badSchemaAgent
      (.obj [("id", .num 3), ("params", .obj [("input_text", .str "x")])])
      = .ok (some (jsonrpc_error (.num 3) (-32000) schemaErrMsg
          (some (.obj [("validation_errors",
                        .arr (threeErrs.map encodeFieldError))])))) :=
  (validation_failure_full_errors badSchemaAgent
      [("id", .num 3), ("params", .obj [("input_text", .str "x")])]
      "x"
      (.obj [("paper", .arr []), ("equations", .str "not-a-list"),
             ("extraction_metadata", .null)])
      threeErrs rfl rfl (by decide) rfl rfl).1

/-!
## Validator lemmas for extras preservation and idempotence
-/

theorem mem_extrasOf (kvs : List (String × Json)) (known : List String)
    (kv : String × Json) (h1 : kv ∈ kvs)
    (h2 : known.contains kv.1 = false) : kv ∈ extrasOf kvs known :=
  List.mem_filter.mpr ⟨h1, by
    show (!(known.contains kv.1)) = true
    rw [h2]
    rfl⟩

theorem extrasOf_idem (kvs : List (String × Json)) (known : List String) :
    extrasOf (extrasOf kvs known) known = extrasOf kvs known := by
  unfold extrasOf
  induction kvs with
  | nil => rfl
  | cons hd tl ih =>
    by_cases hp : (!(known.contains hd.1)) = true
    · have h1 : List.filter (fun kv => !known.contains kv.1) (hd :: tl)
          = hd :: List.filter (fun kv => !known.contains kv.1) tl := by
        rw [List.filter_cons, if_pos hp]
      rw [h1, List.filter_cons, if_pos hp, ih]
    · have h1 : List.filter (fun kv => !known.contains kv.1) (hd :: tl)
          = List.filter (fun kv => !known.contains kv.1) tl := by
        rw [List.filter_cons, if_neg hp]
      rw [h1, ih]

theorem optFieldErr_ok (kvs : List (String × Json)) (k : String)
    (ok : Json → Bool) (msg : String) (hnull : ok Json.null = true)
    (h : optFieldErr kvs k ok msg = []) : ok (getJ kvs k) = true := by
  unfold optFieldErr at h
  unfold getJ
  cases hx : lookupJ kvs k with
  | none => simpa using hnull
  | some v =>
    rw [hx] at h
    dsimp only at h
    by_cases ho : ok v
    · simpa using ho
    · rw [if_neg (by simpa using ho)] at h
      exact absurd h (by simp)

theorem optFieldErr_of_lookup (kvs : List (String × Json)) (k : String)
    (ok : Json → Bool) (msg : String) (v : Json)
    (hl : lookupJ kvs k = some v) (hv : ok v = true) :
    optFieldErr kvs k ok msg = [] := by
  unfold optFieldErr
  rw [hl]
  dsimp only
  rw [if_pos hv]

theorem dumpPaper_idem (kvs : List (String × Json)) :
    dumpPaper (dumpPaper kvs) = dumpPaper kvs := by
  have h : extrasOf (dumpPaper kvs) paperKnown = extrasOf kvs paperKnown :=
    extrasOf_idem kvs paperKnown
  calc dumpPaper (dumpPaper kvs)
      = [("doi", getJ kvs "doi"), ("title", getJ kvs "title"),
         ("year", getJ kvs "year")] ++ extrasOf (dumpPaper kvs) paperKnown := rfl
    _ = [("doi", getJ kvs "doi"), ("title", getJ kvs "title"),
         ("year", getJ kvs "year")] ++ extrasOf kvs paperKnown := by rw [h]
    _ = dumpPaper kvs := rfl

theorem dumpEquation_idem (kvs : List (String × Json)) :
    dumpEquation (dumpEquation kvs) = dumpEquation kvs := by
  have h : extrasOf (dumpEquation kvs) eqKnown = extrasOf kvs eqKnown :=
    extrasOf_idem kvs eqKnown
  calc dumpEquation (dumpEquation kvs)
      = [("latex", getJ kvs "latex"),
         ("model_performance", getJ kvs "model_performance")]
          ++ extrasOf (dumpEquation kvs) eqKnown := rfl
    _ = [("latex", getJ kvs "latex"),
         ("model_performance", getJ kvs "model_performance")]
          ++ extrasOf kvs eqKnown := by rw [h]
    _ = dumpEquation kvs := rfl

theorem dumpMetadata_idem (kvs : List (String × Json)) :
    dumpMetadata (dumpMetadata kvs) = dumpMetadata kvs := by
  have h : extrasOf (dumpMetadata kvs) metaKnown = extrasOf kvs metaKnown :=
    extrasOf_idem kvs metaKnown
  calc dumpMetadata (dumpMetadata kvs)
      = [("task_id", getJ kvs "task_id"), ("input_doi", getJ kvs "input_doi"),
         ("schema_name", getJ kvs "schema_name"),
         ("schema_version", getJ kvs "schema_version")]
          ++ extrasOf (dumpMetadata kvs) metaKnown := rfl
    _ = [("task_id", getJ kvs "task_id"), ("input_doi", getJ kvs "input_doi"),
         ("schema_name", getJ kvs "schema_name"),
         ("schema_version", getJ kvs "schema_version")]
          ++ extrasOf kvs metaKnown := by rw [h]
    _ = dumpMetadata kvs := rfl

theorem validatePaper_ok_inv (p q : Json) (h : validatePaper p = .ok q) :
    ∃ pkvs, p = .obj pkvs ∧ q = .obj (dumpPaper pkvs)
      ∧ isOptStr (getJ pkvs "doi") = true
      ∧ isOptStr (getJ pkvs "title") = true
      ∧ isOptIntOrStr (getJ pkvs "year") = true := by
  cases p with
  | obj pkvs =>
    unfold validatePaper at h
    dsimp only at h
    split at h
    next herrs =>
      cases h
      rw [List.isEmpty_iff] at herrs
      rcases List.append_eq_nil.mp herrs with ⟨h12, h3⟩
      rcases List.append_eq_nil.mp h12 with ⟨h1, h2⟩
      exact ⟨pkvs, rfl, rfl,
        optFieldErr_ok _ _ _ _ rfl h1,
        optFieldErr_ok _ _ _ _ rfl h2,
        optFieldErr_ok _ _ _ _ rfl h3⟩
    next => exact Except.noConfusion h
  | null => exact Except.noConfusion h
  | bool b => exact Except.noConfusion h
  | num n => exact Except.noConfusion h
  | str s => exact Except.noConfusion h
  | arr xs => exact Except.noConfusion h

theorem validatePaper_idem (p q : Json) (h : validatePaper p = .ok q) :
    validatePaper q = .ok q := by
  obtain ⟨pkvs, -, rfl, h1, h2, h3⟩ := validatePaper_ok_inv p q h
  unfold validatePaper
  dsimp only
  rw [optFieldErr_of_lookup (dumpPaper pkvs) "doi" isOptStr strTypeMsg
        (getJ pkvs "doi") rfl h1,
      optFieldErr_of_lookup (dumpPaper pkvs) "title" isOptStr strTypeMsg
        (getJ pkvs "title") rfl h2,
      optFieldErr_of_lookup (dumpPaper pkvs) "year" isOptIntOrStr yearTypeMsg
        (getJ pkvs "year") rfl h3,
      dumpPaper_idem]
  rfl

theorem validateEquation_ok_inv (e w : Json) (h : validateEquation e = .ok w) :
    ∃ ekvs, e = .obj ekvs ∧ w = .obj (dumpEquation ekvs)
      ∧ isOptStr (getJ ekvs "latex") = true := by
  cases e with
  | obj ekvs =>
    unfold validateEquation at h
    dsimp only at h
    split at h
    next herrs =>
      cases h
      rw [List.isEmpty_iff] at herrs
      exact ⟨ekvs, rfl, rfl, optFieldErr_ok _ _ _ _ rfl herrs⟩
    next => exact Except.noConfusion h
  | null => exact Except.noConfusion h
  | bool b => exact Except.noConfusion h
  | num n => exact Except.noConfusion h
  | str s => exact Except.noConfusion h
  | arr xs => exact Except.noConfusion h

theorem validateEquation_idem (e w : Json) (h : validateEquation e = .ok w) :
    validateEquation w = .ok w := by
  obtain ⟨ekvs, -, rfl, h1⟩ := validateEquation_ok_inv e w h
  unfold validateEquation
  dsimp only
  rw [optFieldErr_of_lookup (dumpEquation ekvs) "latex" isOptStr strTypeMsg
        (getJ ekvs "latex") rfl h1,
      dumpEquation_idem]
  rfl

theorem validateMetadata_ok_inv (m w : Json) (h : validateMetadata m = .ok w) :
    ∃ mkvs, m = .obj mkvs ∧ w = .obj (dumpMetadata mkvs)
      ∧ isOptStr (getJ mkvs "task_id") = true
      ∧ isOptStr (getJ mkvs "input_doi") = true
      ∧ isOptStr (getJ mkvs "schema_name") = true
      ∧ isOptStr (getJ mkvs "schema_version") = true := by
  cases m with
  | obj mkvs =>
    unfold validateMetadata at h
    dsimp only at h
    split at h
    next herrs =>
      cases h
      rw [List.isEmpty_iff] at herrs
      rcases List.append_eq_nil.mp herrs with ⟨h123, h4⟩
      rcases List.append_eq_nil.mp h123 with ⟨h12, h3⟩
      rcases List.append_eq_nil.mp h12 with ⟨h1, h2⟩
      exact ⟨mkvs, rfl, rfl,
        optFieldErr_ok _ _ _ _ rfl h1,
        optFieldErr_ok _ _ _ _ rfl h2,
        optFieldErr_ok _ _ _ _ rfl h3,
        optFieldErr_ok _ _ _ _ rfl h4⟩
    next => exact Except.noConfusion h
  | null => exact Except.noConfusion h
  | bool b => exact Except.noConfusion h
  | num n => exact Except.noConfusion h
  | str s => exact Except.noConfusion h
  | arr xs => exact Except.noConfusion h

theorem validateMetadata_idem (m w : Json) (h : validateMetadata m = .ok w) :
    validateMetadata w = .ok w := by
  obtain ⟨mkvs, -, rfl, h1, h2, h3, h4⟩ := validateMetadata_ok_inv m w h
  unfold validateMetadata
  dsimp only
  rw [optFieldErr_of_lookup (dumpMetadata mkvs) "task_id" isOptStr strTypeMsg
        (getJ mkvs "task_id") rfl h1,
      optFieldErr_of_lookup (dumpMetadata mkvs) "input_doi" isOptStr strTypeMsg
        (getJ mkvs "input_doi") rfl h2,
      optFieldErr_of_lookup (dumpMetadata mkvs) "schema_name" isOptStr
        strTypeMsg (getJ mkvs "schema_name") rfl h3,
      optFieldErr_of_lookup (dumpMetadata mkvs) "schema_version" isOptStr
        strTypeMsg (getJ mkvs "schema_version") rfl h4,
      dumpMetadata_idem]
  rfl

theorem validateEquation_error_ne_nil (e : Json) (es : List FieldError)
    (h : validateEquation e = .error es) : es ≠ [] := by
  cases e with
  | obj kvs =>
    unfold validateEquation at h
    dsimp only at h
    split at h
    next => exact Except.noConfusion h
    next hne =>
      cases h
      intro hnil
      rw [hnil] at hne
      exact hne rfl
  | null => cases h; simp
  | bool b => cases h; simp
  | num n => cases h; simp
  | str s => cases h; simp
  | arr xs => cases h; simp

theorem eqErrorsFrom_nil (es : List Json) :
    ∀ i, eqErrorsFrom i es = [] →
      ∀ e ∈ es, validateEquation e = .ok (dumpEquationJ e) := by
  induction es with
  | nil => intro i _ e he; exact absurd he (List.not_mem_nil e)
  | cons e0 rest ih =>
    intro i h e he
    unfold eqErrorsFrom at h
    rcases List.append_eq_nil.mp h with ⟨h1, h2⟩
    rcases List.mem_cons.mp he with rfl | hm
    · cases hv : validateEquation e with
      | ok w =>
        obtain ⟨ekvs, rfl, rfl, -⟩ := validateEquation_ok_inv e w hv
        rfl
      | error es2 =>
        rw [hv] at h1
        dsimp only at h1
        unfold pushPath at h1
        exact absurd (List.map_eq_nil_iff.mp h1)
          (validateEquation_error_ne_nil e es2 hv)
    · exact ih (i + 1) h2 e hm

theorem eqErrorsFrom_map (es : List Json)
    (h : ∀ e ∈ es, validateEquation e = .ok (dumpEquationJ e)) :
    ∀ i, eqErrorsFrom i (es.map dumpEquationJ) = [] := by
  induction es with
  | nil => intro i; rfl
  | cons e0 rest ih =>
    intro i
    have h0 := h e0 (List.mem_cons_self e0 rest)
    have hid : validateEquation (dumpEquationJ e0) = .ok (dumpEquationJ e0) :=
      validateEquation_idem e0 _ h0
    simp only [List.map_cons, eqErrorsFrom, hid, List.nil_append]
    exact ih (fun e he => h e (List.mem_cons_of_mem _ he)) (i + 1)

theorem map_dumpEquationJ_idem (es : List Json)
    (h : ∀ e ∈ es, validateEquation e = .ok (dumpEquationJ e)) :
    (es.map dumpEquationJ).map dumpEquationJ = es.map dumpEquationJ := by
  induction es with
  | nil => rfl
  | cons e0 rest ih =>
    have h0 := h e0 (List.mem_cons_self e0 rest)
    obtain ⟨ekvs, rfl, -, -⟩ := validateEquation_ok_inv e0 _ h0
    have hhead : dumpEquationJ (dumpEquationJ (Json.obj ekvs))
        = dumpEquationJ (Json.obj ekvs) := by
      show Json.obj (dumpEquation (dumpEquation ekvs)) = Json.obj (dumpEquation ekvs)
      rw [dumpEquation_idem]
    simp only [List.map_cons, hhead,
      ih (fun e he => h e (List.mem_cons_of_mem _ he))]

theorem validateField_of_lookup (kvs : List (String × Json)) (k : String)
    (vf : Json → Except (List FieldError) Json) (v w : Json)
    (hl : lookupJ kvs k = some v) (h : vf v = .ok w) :
    validateField kvs k vf = .ok w := by
  unfold validateField
  rw [hl]
  dsimp only
  rw [h]

theorem validateEquationsField_of (kvs : List (String × Json)) (es : List Json)
    (hl : lookupJ kvs "equations" = some (.arr es))
    (he : eqErrorsFrom 0 es = []) :
    validateEquationsField kvs = .ok (.arr (es.map dumpEquationJ)) := by
  unfold validateEquationsField
  rw [hl]
  dsimp only
  rw [he]

theorem validateExtractionOutput_ok_inv (kvs : List (String × Json)) (w : Json)
    (h : validateExtractionOutput (.obj kvs) = .ok w) :
    ∃ pkvs es mkvs,
      lookupJ kvs "paper" = some (.obj pkvs)
      ∧ lookupJ kvs "equations" = some (.arr es)
      ∧ lookupJ kvs "extraction_metadata" = some (.obj mkvs)
      ∧ validatePaper (.obj pkvs) = .ok (.obj (dumpPaper pkvs))
      ∧ eqErrorsFrom 0 es = []
      ∧ validateMetadata (.obj mkvs) = .ok (.obj (dumpMetadata mkvs))
      ∧ w = .obj ([("paper", .obj (dumpPaper pkvs)),
                   ("equations", .arr (es.map dumpEquationJ)),
                   ("extraction_metadata", .obj (dumpMetadata mkvs))]
                  ++ extrasOf kvs outKnown) := by
  have hFieldInv : ∀ (kvs2 : List (String × Json)) (k : String)
      (vf : Json → Except (List FieldError) Json) (w2 : Json),
      validateField kvs2 k vf = .ok w2 →
      ∃ v, lookupJ kvs2 k = some v ∧ vf v = .ok w2 := by
    intro kvs2 k vf w2 h2
    unfold validateField at h2
    cases hl : lookupJ kvs2 k with
    | none => rw [hl] at h2; exact Except.noConfusion h2
    | some v =>
      rw [hl] at h2
      dsimp only at h2
      cases hv : vf v with
      | ok w3 =>
        rw [hv] at h2
        dsimp only at h2
        cases h2
        exact ⟨v, rfl, hv⟩
      | error es2 => rw [hv] at h2; exact Except.noConfusion h2
  have hEqInv : ∀ (kvs2 : List (String × Json)) (ew : Json),
      validateEquationsField kvs2 = .ok ew →
      ∃ es, lookupJ kvs2 "equations" = some (.arr es)
        ∧ eqErrorsFrom 0 es = [] ∧ ew = .arr (es.map dumpEquationJ) := by
    intro kvs2 ew h2
    unfold validateEquationsField at h2
    cases hl : lookupJ kvs2 "equations" with
    | none => rw [hl] at h2; exact Except.noConfusion h2
    | some v =>
      rw [hl] at h2
      cases v with
      | arr es =>
        dsimp only at h2
        cases he : eqErrorsFrom 0 es with
        | nil =>
          rw [he] at h2
          dsimp only at h2
          cases h2
          exact ⟨es, rfl, he, rfl⟩
        | cons a as => rw [he] at h2; exact Except.noConfusion h2
      | null => exact Except.noConfusion h2
      | bool b => exact Except.noConfusion h2
      | num n => exact Except.noConfusion h2
      | str s => exact Except.noConfusion h2
      | obj o => exact Except.noConfusion h2
  unfold validateExtractionOutput at h
  dsimp only at h
  cases hpx : validateField kvs "paper" validatePaper with
  | error es2 => rw [hpx] at h; exact Except.noConfusion h
  | ok pw =>
    rw [hpx] at h
    cases hex : validateEquationsField kvs with
    | error es2 => rw [hex] at h; exact Except.noConfusion h
    | ok ew =>
      rw [hex] at h
      cases hmx : validateField kvs "extraction_metadata" validateMetadata with
      | error es2 => rw [hmx] at h; exact Except.noConfusion h
      | ok mw =>
        rw [hmx] at h
        dsimp only at h
        cases h
        obtain ⟨p, hlp, hvp⟩ := hFieldInv kvs "paper" validatePaper pw hpx
        obtain ⟨pkvs, rfl, rfl, -, -, -⟩ := validatePaper_ok_inv p pw hvp
        obtain ⟨es, hle, heq0, rfl⟩ := hEqInv kvs ew hex
        obtain ⟨m, hlm, hvm⟩ :=
          hFieldInv kvs "extraction_metadata" validateMetadata mw hmx
        obtain ⟨mkvs, rfl, rfl, -, -, -, -⟩ := validateMetadata_ok_inv m mw hvm
        exact ⟨pkvs, es, mkvs, hlp, hle, hlm, hvp, heq0, hvm, rfl⟩

theorem zip_map_snd (f : Json → Json) :
    ∀ (es : List Json) (pr : Json × Json), pr ∈ es.zip (es.map f) →
      pr.2 = f pr.1 := by
  intro es
  induction es with
  | nil => intro pr h; exact absurd h (List.not_mem_nil pr)
  | cons e rest ih =>
    intro pr h
    simp only [List.map_cons, List.zip_cons_cons, List.mem_cons] at h
    rcases h with rfl | hm
    · rfl
    · exact ih pr hm

/-- C9: the schema validator is idempotent: validating an
already-normalized output value again succeeds and returns it
unchanged. -/
theorem validate_idempotent (v w : Json)
    (h : validateExtractionOutput v = .ok w) :
    validateExtractionOutput w = .ok w := by
  cases v with
  | obj kvs =>
    obtain ⟨pkvs, es, mkvs, hlp, hle, hlm, hvp, heq0, hvm, rfl⟩ :=
      validateExtractionOutput_ok_inv kvs w h
    have hpid := validatePaper_idem _ _ hvp
    have hmid := validateMetadata_idem _ _ hvm
    have helem := eqErrorsFrom_nil es 0 heq0
    have hmap0 := eqErrorsFrom_map es helem 0
    have hmapid := map_dumpEquationJ_idem es helem
    have h1 : validateField
        ([("paper", Json.obj (dumpPaper pkvs)),
          ("equations", Json.arr (es.map dumpEquationJ)),
          ("extraction_metadata", Json.obj (dumpMetadata mkvs))]
         ++ extrasOf kvs outKnown) "paper" validatePaper
        = .ok (.obj (dumpPaper pkvs)) :=
      validateField_of_lookup _ _ _ _ _ rfl hpid
    have h2 : validateEquationsField
        ([("paper", Json.obj (dumpPaper pkvs)),
          ("equations", Json.arr (es.map dumpEquationJ)),
          ("extraction_metadata", Json.obj (dumpMetadata mkvs))]
         ++ extrasOf kvs outKnown)
        = .ok (.arr ((es.map dumpEquationJ).map dumpEquationJ)) :=
      validateEquationsField_of _ _ rfl hmap0
    have h3 : validateField
        ([("paper", Json.obj (dumpPaper pkvs)),
          ("equations", Json.arr (es.map dumpEquationJ)),
          ("extraction_metadata", Json.obj (dumpMetadata mkvs))]
         ++ extrasOf kvs outKnown) "extraction_metadata" validateMetadata
        = .ok (.obj (dumpMetadata mkvs)) :=
      validateField_of_lookup _ _ _ _ _ rfl hmid
    rw [hmapid] at h2
    unfold validateExtractionOutput
    dsimp only
    rw [h1, h2, h3]
    dsimp only
    have hex : extrasOf
        ([("paper", Json.obj (dumpPaper pkvs)),
          ("equations", Json.arr (es.map dumpEquationJ)),
          ("extraction_metadata", Json.obj (dumpMetadata mkvs))]
         ++ extrasOf kvs outKnown) outKnown = extrasOf kvs outKnown :=
      extrasOf_idem kvs outKnown
    rw [hex]
  | null => exact Except.noConfusion h
  | bool b => exact Except.noConfusion h
  | num n => exact Except.noConfusion h
  | str s => exact Except.noConfusion h
  | arr xs => exact Except.noConfusion h

/-- C9, instantiated: re-validating an already-normalized value gives
it back. -/
theorem validate_idempotent_witness :
    validateExtractionOutput minimalNormalized = .ok minimalNormalized :=
  validate_idempotent
    (.obj [("paper", .obj []), ("equations", .arr []),
           ("extraction_metadata", .obj [])])
    minimalNormalized rfl

/-- C3: a value accepted by the schema validator keeps every extra,
schema-unknown field unchanged in the normalized output — at the top
level, inside `paper`, inside `extraction_metadata`, and inside each
element of `equations` (elements paired positionwise, the list length
unchanged). -/
theorem extras_preserved (kvs : List (String × Json)) (w : Json)
    (h : validateExtractionOutput (.obj kvs) = .ok w) :
    ∃ wkvs, w = .obj wkvs
      ∧ keepsExtras outKnown kvs wkvs
      ∧ (∀ pkvs, lookupJ kvs "paper" = some (.obj pkvs) →
          ∃ wp, lookupJ wkvs "paper" = some (.obj wp)
            ∧ keepsExtras paperKnown pkvs wp)
      ∧ (∀ mkvs, lookupJ kvs "extraction_metadata" = some (.obj mkvs) →
          ∃ wm, lookupJ wkvs "extraction_metadata" = some (.obj wm)
            ∧ keepsExtras metaKnown mkvs wm)
      ∧ (∀ es, lookupJ kvs "equations" = some (.arr es) →
          ∃ ws, lookupJ wkvs "equations" = some (.arr ws)
            ∧ ws.length = es.length
            ∧ ∀ pr ∈ es.zip ws, ∀ ekvs, pr.1 = .obj ekvs →
                ∃ we, pr.2 = .obj we ∧ keepsExtras eqKnown ekvs we) := by
  obtain ⟨pkvs, es, mkvs, hlp, hle, hlm, -, -, -, rfl⟩ :=
    validateExtractionOutput_ok_inv kvs w h
  refine ⟨_, rfl, ?_, ?_, ?_, ?_⟩
  · intro kv hm hc
    exact List.mem_append_right _ (mem_extrasOf kvs outKnown kv hm hc)
  · intro pkvs2 hl2
    rw [hlp] at hl2
    have hpe : pkvs2 = pkvs := by
      injection hl2 with h2
      injection h2.symm with h3
    subst hpe
    refine ⟨dumpPaper pkvs2, rfl, ?_⟩
    intro kv hm hc
    exact List.mem_append_right _ (mem_extrasOf pkvs2 paperKnown kv hm hc)
  · intro mkvs2 hl2
    rw [hlm] at hl2
    have hme : mkvs2 = mkvs := by
      injection hl2 with h2
      injection h2.symm with h3
    subst hme
    refine ⟨dumpMetadata mkvs2, rfl, ?_⟩
    intro kv hm hc
    exact List.mem_append_right _ (mem_extrasOf mkvs2 metaKnown kv hm hc)
  · intro es2 hl2
    rw [hle] at hl2
    have hee : es2 = es := by
      injection hl2 with h2
      injection h2.symm with h3
    subst hee
    refine ⟨es2.map dumpEquationJ, rfl, List.length_map es2 dumpEquationJ, ?_⟩
    intro pr hpr ekvs hek
    have h2 := zip_map_snd dumpEquationJ es2 pr hpr
    rw [hek] at h2
    refine ⟨dumpEquation ekvs, h2, ?_⟩
    intro kv hm hc
    exact List.mem_append_right _ (mem_extrasOf ekvs eqKnown kv hm hc)

/-- C3, instantiated: extras `debug`, `venue`, `units`, `run` at the
four levels all survive normalization unchanged. -/
theorem extras_preserved_witness :
    ∃ wkvs, extrasSampleNorm = .obj wkvs
      ∧ keepsExtras outKnown extrasSampleKvs wkvs
      ∧ (∀ pkvs, lookupJ extrasSampleKvs "paper" = some (.obj pkvs) →
          ∃ wp, lookupJ wkvs "paper" = some (.obj wp)
            ∧ keepsExtras paperKnown pkvs wp)
      ∧ (∀ mkvs,
          lookupJ extrasSampleKvs "extraction_metadata" = some (.obj mkvs) →
          ∃ wm, lookupJ wkvs "extraction_metadata" = some (.obj wm)
            ∧ keepsExtras metaKnown mkvs wm)
      ∧ (∀ es, lookupJ extrasSampleKvs "equations" = some (.arr es) →
          ∃ ws, lookupJ wkvs "equations" = some (.arr ws)
            ∧ ws.length = es.length
            ∧ ∀ pr ∈ es.zip ws, ∀ ekvs, pr.1 = .obj ekvs →
                ∃ we, pr.2 = .obj we ∧ keepsExtras eqKnown ekvs we) :=
  extras_preserved extrasSampleKvs extrasSampleNorm rfl
